import Mathlib

/-!
Verification development for the phantom-core OHLCV library.

The Python source is shallowly embedded: Python floats become `ℚ` (all values
exercised here are exactly representable), `datetime.timedelta` and timestamps
become `Int` microseconds, pandas tables become association lists from
timestamp to a row of `Option`-valued columns, and fallible constructors
(pydantic validators, asserts, raised exceptions) become `Except`.
-/

/-- Python exceptions raised by the embedded code paths. -/
inductive PyError
  | valueError (msg : String)
  | notImplementedError (msg : String)
  | zeroDivisionError
  | indexError
  | assertionError
deriving DecidableEq, Repr

/-- Timedeltas and timestamps in microseconds (the resolution of
`datetime.timedelta` and `pd.Timestamp`). -/
abbrev Micros := Int

/-- `DataTimeframe.MIN_1` as a timedelta. -/
def MIN_1 : Micros := 60 * 1000000

/-- `DataTimeframe.MIN_5` as a timedelta. -/
def MIN_5 : Micros := 5 * 60 * 1000000

/-- One hour as a timedelta. -/
def HOUR_1 : Micros := 60 * 60 * 1000000

/-- One day as a timedelta; also `DataTimeframe.DAILY`. -/
def DAY_1 : Micros := 24 * 60 * 60 * 1000000

/-- The raw fields of `OHLCVAggSpec` (ticker, timeframe, offset) before
pydantic validation runs. -/
structure OHLCVAggSpec where
  ticker : String
  timeframe : Micros
  offset : Micros := 0
deriving DecidableEq, Repr

/-- Embedding of `OHLCVAggSpec.validate_ohlcvaggspec` (ohlcv.py lines 192-213):
the pydantic model validator that rejects unsupported timeframes and invalid
offsets, mirroring the if-chain of the source exactly. -/
def validate_ohlcvaggspec (s : OHLCVAggSpec) : Except PyError OHLCVAggSpec :=
  if s.timeframe ≠ MIN_1 ∧ s.timeframe ≠ MIN_5 then
    .error (.notImplementedError "Only MIN_1 and MIN_5 are supported")
  else if s.offset < 0 then
    .error (.valueError "Offset must be positive")
  else if 0 < s.offset then
    if s.offset % MIN_1 ≠ 0 then
      .error (.valueError "Offset must be a multiple of 1 minute")
    else if s.timeframe < s.offset then
      .error (.valueError "Offset must be less than the timeframe")
    else if HOUR_1 < s.offset then
      .error (.notImplementedError "Offset must be less than 1 hour")
    else
      .ok s
  else
    .ok s

/-- The raw fields of an `OHLCVAgg` bar before pydantic validation runs. -/
structure OHLCVAgg where
  ticker : String
  timeframe : Micros
  offset : Micros := 0
  start_ts : Micros
  end_ts : Micros
  «open» : ℚ
  high : ℚ
  low : ℚ
  close : ℚ
  volume : ℚ
  vwap : ℚ
  transactions : ℚ
  avg_size : ℚ
deriving DecidableEq, Repr

/-- `np.isclose(a, b, rtol=0.01)` with the numpy default `atol = 1e-8`:
`|a - b| <= atol + rtol * |b|`, over exact rationals. -/
def npIsClose (a b : ℚ) : Bool :=
  decide (|a - b| ≤ 1 / 100000000 + 1 / 100 * |b|)

/-- Embedding of `OHLCVAgg.validate_ohlcvagg` (ohlcv.py lines 234-249): the
duration check and the volume/transactions/avg_size consistency checks. -/
def validate_ohlcvagg (b : OHLCVAgg) : Except PyError OHLCVAgg :=
  if b.end_ts - b.start_ts ≠ b.timeframe then
    .error (.valueError "end_ts - start_ts must be equal to timeframe")
  else if b.volume = 0 then
    if b.transactions ≠ 0 then
      .error (.valueError "Volume is 0 but transactions are not 0")
    else if b.avg_size ≠ 0 then
      .error (.valueError "Volume is 0 but avg_size is not 0")
    else
      .ok b
  else if npIsClose (b.transactions / b.volume) b.avg_size then
    .ok b
  else
    .error (.valueError "Transactions per volume must be close to average size")

/-- Constructing an `OHLCVAgg` through pydantic runs the inherited spec
validator and then the bar validator; no partially valid object escapes. -/
def mkOHLCVAgg (b : OHLCVAgg) : Except PyError OHLCVAgg := do
  let _ ← validate_ohlcvaggspec ⟨b.ticker, b.timeframe, b.offset⟩
  validate_ohlcvagg b

/-- Embedding of `OHLCVAgg.create` (ohlcv.py lines 260-298): the conversion
helper that infers one of transactions and avg_size from the other.  The
Python expression `transactions / volume` raises `ZeroDivisionError` when
`volume == 0.0`, embedded as an explicit error branch. -/
def OHLCVAgg.create (ticker : String) (timeframe : Micros) (start_ts : Micros)
    (o h l c : ℚ) (volume : ℚ) (vwap : ℚ)
    (end_ts : Option Micros := none)
    (transactions : Option ℚ := none) (avg_size : Option ℚ := none) :
    Except PyError OHLCVAgg :=
  let end_ts := end_ts.getD (start_ts + timeframe)
  match transactions, avg_size with
  | none, none =>
      .error (.valueError "avg_size must be provided if transactions is not provided")
  | none, some a =>
      mkOHLCVAgg ⟨ticker, timeframe, 0, start_ts, end_ts, o, h, l, c,
        volume, vwap, volume * a, a⟩
  | some t, none =>
      if volume = 0 then .error .zeroDivisionError
      else mkOHLCVAgg ⟨ticker, timeframe, 0, start_ts, end_ts, o, h, l, c,
        volume, vwap, t, t / volume⟩
  | some t, some a =>
      mkOHLCVAgg ⟨ticker, timeframe, 0, start_ts, end_ts, o, h, l, c,
        volume, vwap, t, a⟩

/-- Insert a bar into a list sorted by `start_ts` (the effect of
`pd.DataFrame(...).sort_index()` on rows keyed by `start_ts`). -/
def insertByStart (b : OHLCVAgg) : List OHLCVAgg → List OHLCVAgg
  | [] => [b]
  | c :: cs =>
      if b.start_ts ≤ c.start_ts then b :: c :: cs else c :: insertByStart b cs

/-- Sort a list of bars by `start_ts`. -/
def sortByStart : List OHLCVAgg → List OHLCVAgg
  | [] => []
  | b :: bs => insertByStart b (sortByStart bs)

/-- Fold a rational maximum over a list. -/
def qListMax (x : ℚ) (l : List ℚ) : ℚ := l.foldl max x

/-- Fold a rational minimum over a list. -/
def qListMin (x : ℚ) (l : List ℚ) : ℚ := l.foldl min x

/-- Sum of a list of rationals. -/
def qListSum (l : List ℚ) : ℚ := l.foldl (· + ·) 0

/-- Embedding of `OHLCVAgg.create_from_aggs` (ohlcv.py lines 304-338).  The
source builds a DataFrame indexed by each sub-bar `start_ts`, sorts it, and
then reads `start_ts, end_ts = df.index[0], df.index[-1]` — so the new bar
`end_ts` is the *start* timestamp of the last sub-bar.  `df.loc[start_ts]`
and `df.loc[end_ts]` select the first and last rows (index values are assumed
distinct, as for any gapless input).  The result is constructed through the
validating constructor. -/
def create_from_aggs (spec : OHLCVAggSpec) (aggs : List OHLCVAgg) :
    Except PyError OHLCVAgg :=
  match sortByStart aggs with
  | [] => .error .indexError
  | first :: rest =>
      let lastBar := rest.getLastD first
      let n : ℚ := (rest.length + 1 : ℕ)
      mkOHLCVAgg
        { ticker := spec.ticker
          timeframe := spec.timeframe
          offset := spec.offset
          start_ts := first.start_ts
          end_ts := lastBar.start_ts
          «open» := first.«open»
          high := qListMax first.high (rest.map OHLCVAgg.high)
          low := qListMin first.low (rest.map OHLCVAgg.low)
          close := lastBar.close
          volume := qListSum (first.volume :: rest.map OHLCVAgg.volume)
          vwap := qListSum (first.vwap :: rest.map OHLCVAgg.vwap)
          transactions := qListSum (first.transactions :: rest.map OHLCVAgg.transactions)
          avg_size := qListSum (first.avg_size :: rest.map OHLCVAgg.avg_size) / n }

/-- `OHLCVAggSpec.__hash__` (ohlcv.py lines 215-216): Python hashes the tuple
`(ticker, timeframe)`; the tuple hash itself is an arbitrary function `h2`. -/
def spec_hash (h2 : String × Micros → Int) (s : OHLCVAggSpec) : Int :=
  h2 (s.ticker, s.timeframe)

/-- `OHLCVAggSpec.__eq__` (ohlcv.py lines 218-219): equality is hash
equality. -/
def spec_eq (h2 : String × Micros → Int) (s1 s2 : OHLCVAggSpec) : Bool :=
  spec_hash h2 s1 == spec_hash h2 s2

/-- `OHLCVAgg.__hash__` (ohlcv.py lines 340-341): Python hashes the tuple
`(ticker, timeframe, start_ts)` via an arbitrary tuple hash `h3`. -/
def agg_hash (h3 : String × Micros × Micros → Int) (b : OHLCVAgg) : Int :=
  h3 (b.ticker, b.timeframe, b.start_ts)

/-- `OHLCVAgg` inherits `__eq__` from `OHLCVAggSpec`: equality is equality of
the (overridden, three-field) hashes. -/
def agg_eq (h3 : String × Micros × Micros → Int) (b1 b2 : OHLCVAgg) : Bool :=
  agg_hash h3 b1 == agg_hash h3 b2

/-- The claimed tolerance predicate, following the words of the spec (1%
relative tolerance), for comparison with the `np.isclose` check of the
source. -/
def withinRelTol1pct (a b : ℚ) : Prop := |a - b| ≤ 1 / 100 * |b|

/-- A 1-minute sub-bar starting `k` minutes into the hour: prices 1,
volume 100, transactions 5, avg_size 1/20 (so each sub-bar satisfies all bar
invariants on its own). -/
def oneMinBar (k : Int) : OHLCVAgg :=
  ⟨"AAPL", MIN_1, 0, k * MIN_1, (k + 1) * MIN_1, 1, 1, 1, 1, 100, 1, 5, 1 / 20⟩

/-- The 5-minute aggregation target spec. -/
def fiveMinSpec : OHLCVAggSpec := ⟨"AAPL", MIN_5, 0⟩

/-- The complete, correctly ordered, gapless list of five 1-minute bars whose
combined span is exactly one 5-minute window starting at epoch 0. -/
def fiveGaplessBars : List OHLCVAgg :=
  [oneMinBar 0, oneMinBar 1, oneMinBar 2, oneMinBar 3, oneMinBar 4]

/-- C1: the spec claims `create_from_aggs` on a complete, ordered, gapless
list of 1-minute bars spanning exactly one 5-minute window returns a valid
5-minute Bar.  The code instead sets the synthesized `end_ts` to the *start*
timestamp of the last sub-bar (`df.index[-1]`), so the duration comes out as
4 minutes and the invariant-checking constructor raises
`ValueError("end_ts - start_ts must be equal to timeframe")`.  This theorem
evaluates the embedded code at the canonical failing input: each sub-bar is
individually valid, consecutive sub-bars are gapless, the combined span is
exactly 5 minutes, yet aggregation fails. -/
theorem create_from_aggs_rejects_complete_five_minute_window :
    (fiveGaplessBars.length = 5 ∧
      (∀ k : Fin 4, (fiveGaplessBars.get? (k.1 + 1)).map OHLCVAgg.start_ts =
        (fiveGaplessBars.get? k.1).map OHLCVAgg.end_ts) ∧
      (oneMinBar 4).end_ts - (oneMinBar 0).start_ts = MIN_5) ∧
    create_from_aggs fiveMinSpec fiveGaplessBars =
      .error (.valueError "end_ts - start_ts must be equal to timeframe") := by
  refine ⟨⟨rfl, ?_, by decide⟩, rfl⟩
  intro k
  fin_cases k <;> decide

/-- C2: the spec claims a non-zero offset must be *strictly* less than the
timeframe (the error message of the source says the same), but the guard in
`validate_ohlcvaggspec` is `offset > timeframe`, so an offset exactly equal
to the timeframe — here a 1-minute offset with a 1-minute timeframe — is
silently accepted rather than rejected. -/
theorem validate_ohlcvaggspec_accepts_offset_equal_to_timeframe :
    (MIN_1 : Micros) ≠ 0 ∧
    validate_ohlcvaggspec ⟨"AAPL", MIN_1, MIN_1⟩ = .ok ⟨"AAPL", MIN_1, MIN_1⟩ :=
  ⟨by decide, rfl⟩

/-- A bar whose transactions-per-volume ratio (10⁻⁹) is *not* within 1%
relative tolerance of its avg_size (0), yet which passes construction,
because `np.isclose` also allows the numpy default absolute tolerance
`atol = 1e-8`. -/
def atolBar : OHLCVAgg :=
  ⟨"AAPL", MIN_1, 0, 0, MIN_1, 1, 1, 1, 1, 1000000000, 1, 1, 0⟩

/-- C3 counterexample: the claim says construction fails whenever
`transactions / volume` is not within 1% *relative* tolerance of `avg_size`;
`atolBar` violates the relative-tolerance condition but is accepted by the
code (the `np.isclose` check also grants an absolute tolerance of `1e-8`). -/
theorem validate_ohlcvagg_accepts_outside_relative_tolerance :
    atolBar.volume ≠ 0 ∧
    ¬ withinRelTol1pct (atolBar.transactions / atolBar.volume) atolBar.avg_size ∧
    mkOHLCVAgg atolBar = .ok atolBar := by
  refine ⟨by norm_num [atolBar], ?_, ?_⟩
  · show ¬ |(1 : ℚ) / 1000000000 - 0| ≤ 1 / 100 * |(0 : ℚ)|
    rw [sub_zero, abs_of_pos (by norm_num), abs_of_nonneg (by norm_num)]
    norm_num
  · simp only [mkOHLCVAgg, validate_ohlcvaggspec, validate_ohlcvagg, npIsClose,
      atolBar, MIN_1, MIN_5, HOUR_1]
    norm_num [bind, Except.bind]
    intro h
    rw [abs_of_pos (by norm_num)] at h
    norm_num at h

/-- C3 as amended: bar construction enforces the volume consistency
invariant with the tolerance the code actually uses — if `volume == 0` then
construction fails whenever `transactions != 0` or `avg_size != 0`, and if
`volume != 0` construction fails whenever `transactions / volume` fails the
`np.isclose(·, avg_size, rtol=0.01)` test (1% relative tolerance plus the
numpy default absolute tolerance `1e-8`); no partially valid bar is ever
returned. -/
theorem validate_ohlcvagg_volume_consistency (b : OHLCVAgg) :
    (b.volume = 0 → (b.transactions ≠ 0 ∨ b.avg_size ≠ 0) →
      ∃ e, mkOHLCVAgg b = .error e) ∧
    (b.volume ≠ 0 → npIsClose (b.transactions / b.volume) b.avg_size = false →
      ∃ e, mkOHLCVAgg b = .error e) := by
  have hmain : ∀ _ : (b.volume = 0 ∧ (b.transactions ≠ 0 ∨ b.avg_size ≠ 0)) ∨
      (b.volume ≠ 0 ∧ npIsClose (b.transactions / b.volume) b.avg_size = false),
      ∃ e, mkOHLCVAgg b = .error e := by
    intro hcond
    unfold mkOHLCVAgg
    cases hs : validate_ohlcvaggspec ⟨b.ticker, b.timeframe, b.offset⟩ with
    | error e => exact ⟨e, by simp [bind, Except.bind]⟩
    | ok s =>
      simp only [bind, Except.bind]
      unfold validate_ohlcvagg
      split_ifs with h1 h2 h3 h4 h5
      · exact ⟨_, rfl⟩
      · exact ⟨_, rfl⟩
      · exact ⟨_, rfl⟩
      · rcases hcond with ⟨_, ht | ha⟩ | ⟨hv, _⟩
        · exact absurd ht h3
        · exact absurd ha h4
        · exact absurd h2 hv
      · rcases hcond with ⟨hv, _⟩ | ⟨_, hcl⟩
        · exact absurd hv h2
        · rw [hcl] at h5; exact absurd h5 (by simp)
      · exact ⟨_, rfl⟩
  exact ⟨fun hv ht => hmain (Or.inl ⟨hv, ht⟩),
         fun hv hc => hmain (Or.inr ⟨hv, hc⟩)⟩

/-- Witness for the amended C3 theorem at a concrete zero-volume bar with
non-zero transactions. -/
theorem validate_ohlcvagg_volume_consistency_witness :
    ((⟨"AAPL", MIN_1, 0, 0, MIN_1, 1, 1, 1, 1, 0, 1, 1, 0⟩ : OHLCVAgg).volume = 0 ∧
      (⟨"AAPL", MIN_1, 0, 0, MIN_1, 1, 1, 1, 1, 0, 1, 1, 0⟩ : OHLCVAgg).transactions ≠ 0) ∧
    ∃ e, mkOHLCVAgg ⟨"AAPL", MIN_1, 0, 0, MIN_1, 1, 1, 1, 1, 0, 1, 1, 0⟩ = .error e :=
  ⟨⟨rfl, by norm_num⟩,
    (validate_ohlcvagg_volume_consistency _).1 rfl (Or.inl (by norm_num))⟩

/-- C4: equality and hashing of `OHLCVAggSpec` are functions of
`(ticker, timeframe)` only — two specs agreeing on those two fields hash
equal and compare equal whatever their offsets — and equality and hashing of
a concrete `OHLCVAgg` are functions of `(ticker, timeframe, start_ts)` only —
two bars agreeing on those three fields hash equal and compare equal whatever
their other fields.  `h2` and `h3` stand for the Python tuple hashes. -/
theorem hash_eq_ignore_other_fields
    (h2 : String × Micros → Int) (h3 : String × Micros × Micros → Int)
    (s1 s2 : OHLCVAggSpec) (b1 b2 : OHLCVAgg)
    (hst : s1.ticker = s2.ticker) (hsf : s1.timeframe = s2.timeframe)
    (hbt : b1.ticker = b2.ticker) (hbf : b1.timeframe = b2.timeframe)
    (hbs : b1.start_ts = b2.start_ts) :
    spec_hash h2 s1 = spec_hash h2 s2 ∧ spec_eq h2 s1 s2 = true ∧
    agg_hash h3 b1 = agg_hash h3 b2 ∧ agg_eq h3 b1 b2 = true := by
  have hs : spec_hash h2 s1 = spec_hash h2 s2 := by
    unfold spec_hash; rw [hst, hsf]
  have hb : agg_hash h3 b1 = agg_hash h3 b2 := by
    unfold agg_hash; rw [hbt, hbf, hbs]
  refine ⟨hs, ?_, hb, ?_⟩
  · unfold spec_eq; rw [hs]; simp
  · unfold agg_eq; rw [hb]; simp

/-- Witness for the C4 theorem: two specs that differ only in offset, and two
bars that differ in offset, end_ts, prices and volume, under a nontrivial
tuple hash. -/
theorem hash_eq_ignore_other_fields_witness :
    spec_hash (fun p => p.1.length + p.2) ⟨"AAPL", MIN_1, 0⟩ =
      spec_hash (fun p => p.1.length + p.2) ⟨"AAPL", MIN_1, MIN_1⟩ ∧
    spec_eq (fun p => p.1.length + p.2) ⟨"AAPL", MIN_1, 0⟩ ⟨"AAPL", MIN_1, MIN_1⟩ = true ∧
    agg_hash (fun p => p.1.length + p.2.1 + p.2.2)
        ⟨"AAPL", MIN_1, 0, 0, MIN_1, 1, 2, 3, 4, 100, 1, 5, 1 / 20⟩ =
      agg_hash (fun p => p.1.length + p.2.1 + p.2.2)
        ⟨"AAPL", MIN_1, MIN_1, 0, MIN_5, 7, 8, 9, 10, 0, 0, 0, 0⟩ ∧
    agg_eq (fun p => p.1.length + p.2.1 + p.2.2)
        ⟨"AAPL", MIN_1, 0, 0, MIN_1, 1, 2, 3, 4, 100, 1, 5, 1 / 20⟩
        ⟨"AAPL", MIN_1, MIN_1, 0, MIN_5, 7, 8, 9, 10, 0, 0, 0, 0⟩ = true :=
  hash_eq_ignore_other_fields _ _ _ _ _ _ rfl rfl rfl rfl rfl

/-- C10: calling the conversion helper `create` with `volume == 0`,
`transactions` supplied and `avg_size` omitted always raises
`ZeroDivisionError` from the unguarded `transactions / volume` — even when
`transactions == 0` — for every choice of the remaining arguments. -/
theorem create_zero_volume_division_error (ticker : String)
    (timeframe start_ts : Micros) (o h l c vwap : ℚ) (end_ts : Option Micros)
    (t : ℚ) :
    OHLCVAgg.create ticker timeframe start_ts o h l c 0 vwap end_ts (some t) none =
      .error .zeroDivisionError := by
  unfold OHLCVAgg.create
  norm_num

/-- One row of an OHLCV time-series table: the eight numeric columns plus the
constant `ticker` column, each nullable (`none` = pandas null).  The optional
`table` constant column of the source is absent from the fixtures and hence
from this model (the source skips constant columns not present). -/
structure OHLCVRow where
  «open» : Option ℚ
  high : Option ℚ
  low : Option ℚ
  close : Option ℚ
  volume : Option ℚ
  vwap : Option ℚ
  transactions : Option ℚ
  avg_size : Option ℚ
  ticker : Option String
deriving DecidableEq, Repr

/-- A time-indexed table: rows keyed by timestamp, in index order. -/
abbrev OHLCVTable := List (Micros × OHLCVRow)

/-- The fully-null row inserted by reindexing for a missing timestamp. -/
def nullRow : OHLCVRow := ⟨none, none, none, none, none, none, none, none, none⟩

/-- Every column of the row is null. -/
def rowAllNull (r : OHLCVRow) : Bool :=
  r.«open».isNone && r.high.isNone && r.low.isNone && r.close.isNone &&
  r.volume.isNone && r.vwap.isNone && r.transactions.isNone &&
  r.avg_size.isNone && r.ticker.isNone

/-- Some column of the row is non-null (mode any of the source helper). -/
def rowAnyNonnull (r : OHLCVRow) : Bool := !(rowAllNull r)

/-- Some column of the row (any of the nine) is null — one term of
`df.isnull().sum().sum()`. -/
def rowHasNullAny (r : OHLCVRow) : Bool :=
  r.«open».isNone || r.high.isNone || r.low.isNone || r.close.isNone ||
  r.volume.isNone || r.vwap.isNone || r.transactions.isNone ||
  r.avg_size.isNone || r.ticker.isNone

/-- Some column among `OHLCV_CNAMES = [open, high, low, close, volume, vwap,
transactions]` is null — the set checked by the assert in `fill_ohlcv`. -/
def rowHasNull7 (r : OHLCVRow) : Bool :=
  r.«open».isNone || r.high.isNone || r.low.isNone || r.close.isNone ||
  r.volume.isNone || r.vwap.isNone || r.transactions.isNone

/-- Every column of the row is populated. -/
def rowFull (r : OHLCVRow) : Bool :=
  r.«open».isSome && r.high.isSome && r.low.isSome && r.close.isSome &&
  r.volume.isSome && r.vwap.isSome && r.transactions.isSome &&
  r.avg_size.isSome && r.ticker.isSome

/-- Modelled from the spec: `copy_constant_col_to_all_rows` lives in
`dataframe_transforms`, which is not in the repository snapshot.  Per spec
section 4.3 rule 1, the single non-null value found anywhere in the column is
written to every row; the call fails with an ambiguous-state error when more
than one distinct non-null value exists and fails when none exists.  Here it
is instantiated at the `ticker` column. -/
def copy_constant_col_to_all_rows (t : OHLCVTable) : Except PyError OHLCVTable :=
  match ((t.map (fun p => p.2.ticker)).filterMap id).dedup with
  | [] => .error (.valueError "constant column has no non-null value")
  | [v] => .ok (t.map (fun p => (p.1, { p.2 with ticker := some v })))
  | _ => .error (.valueError "constant column has more than one distinct value")

/-- `fillna(0)` on one cell. -/
def fill0 : Option ℚ → Option ℚ
  | none => some 0
  | some v => some v

/-- `fillna(d)` on one cell. -/
def fillWith (d : ℚ) : Option ℚ → Option ℚ
  | none => some d
  | some v => some v

/-- Zero-fill the `fill_zero_cnames = [volume, vwap, transactions, avg_size]`
columns of a row. -/
def zeroFillRow (r : OHLCVRow) : OHLCVRow :=
  { r with volume := fill0 r.volume, vwap := fill0 r.vwap,
           transactions := fill0 r.transactions, avg_size := fill0 r.avg_size }

/-- The close column forward fill: each null close takes the most recent prior
non-null close (`prev`). -/
def ffillClose : OHLCVTable → Option ℚ → OHLCVTable
  | [], _ => []
  | (ts, r) :: rest, prev =>
      match r.close with
      | some c => (ts, r) :: ffillClose rest (some c)
      | none => (ts, { r with close := prev }) :: ffillClose rest prev

/-- Fill null `open`, `high` and `low` of a row with its (already filled)
`close`. -/
def fillOHLFromClose (r : OHLCVRow) : OHLCVRow :=
  match r.close with
  | none => r
  | some c => { r with «open» := fillWith c r.«open», high := fillWith c r.high,
                       low := fillWith c r.low }

/-- Embedding of `fill_ohlcv` (ohlcv.py lines 42-93): propagate constant
columns, zero-fill activity columns, forward-fill close, fill leading null
closes with the first non-null open (`IndexError` if the open column is
entirely null), derive open/high/low from close, and assert the OHLCV columns
are null-free. -/
def fill_ohlcv (t : OHLCVTable) : Except PyError OHLCVTable := do
  let t ← copy_constant_col_to_all_rows t
  let t := t.map (fun p => (p.1, zeroFillRow p.2))
  let t := ffillClose t none
  match (t.map (fun p => p.2.«open»)).filterMap id with
  | [] => .error .indexError
  | firstOpen :: _ =>
    let t := t.map (fun p => (p.1, { p.2 with close := fillWith firstOpen p.2.close }))
    let t := t.map (fun p => (p.1, fillOHLFromClose p.2))
    if t.any (fun p => rowHasNull7 p.2) then .error .assertionError
    else .ok t

/-- A list whose members all equal `v` dedups to `[v]`. -/
theorem dedup_const {v : String} : ∀ l : List String, l ≠ [] →
    (∀ x ∈ l, x = v) → l.dedup = [v] := by
  intro l
  induction l with
  | nil => intro h; exact absurd rfl h
  | cons a t ih =>
      intro _ hall
      have ha : a = v := hall a (by simp)
      subst ha
      cases t with
      | nil => simp
      | cons b t2 =>
          have hb : b = a := hall b (by simp)
          subst hb
          rw [List.dedup_cons_of_mem (by simp)]
          exact ih (by simp) (fun x hx => hall x (by simp [hx]))

/-- An entirely-null row is the null row. -/
theorem rowAllNull_eq (r : OHLCVRow) (h : rowAllNull r = true) : r = nullRow := by
  obtain ⟨o, hi, lo, c, vo, vw, tr, av, tk⟩ := r
  simp only [rowAllNull, Bool.and_eq_true, Option.isNone_iff_eq_none] at h
  obtain ⟨⟨⟨⟨⟨⟨⟨⟨h1, h2⟩, h3⟩, h4⟩, h5⟩, h6⟩, h7⟩, h8⟩, h9⟩ := h
  subst h1 h2 h3 h4 h5 h6 h7 h8 h9
  rfl

/-- Overwriting `ticker` with its own value leaves the row unchanged. -/
theorem setTicker_fix (r : OHLCVRow) (v : String) (h : r.ticker = some v) :
    ({ r with ticker := some v } : OHLCVRow) = r := by
  obtain ⟨o, hi, lo, c, vo, vw, tr, av, tk⟩ := r
  have h2 : tk = some v := h
  subst h2
  rfl

/-- Zero-filling a fully-populated row is the identity. -/
theorem zeroFillRow_full (r : OHLCVRow) (h : rowFull r = true) :
    zeroFillRow r = r := by
  obtain ⟨o, hi, lo, c, vo, vw, tr, av, tk⟩ := r
  simp only [rowFull, Bool.and_eq_true] at h
  obtain ⟨⟨⟨⟨⟨⟨⟨⟨-, -⟩, -⟩, -⟩, h5⟩, h6⟩, h7⟩, h8⟩, -⟩ := h
  cases vo <;> cases vw <;> cases tr <;> cases av <;>
    simp_all [zeroFillRow, fill0]

/-- The close column of a fully-populated row is populated. -/
theorem rowFull_close_isSome (r : OHLCVRow) (h : rowFull r = true) :
    r.close.isSome = true := by
  simp only [rowFull, Bool.and_eq_true] at h
  exact h.1.1.1.1.1.2

/-- Filling an already-populated close with any default is the identity. -/
theorem fillClose_fix (r : OHLCVRow) (d : ℚ) (h : r.close.isSome = true) :
    ({ r with close := fillWith d r.close } : OHLCVRow) = r := by
  obtain ⟨o, hi, lo, c, vo, vw, tr, av, tk⟩ := r
  cases c with
  | none => simp at h
  | some c => rfl

/-- Deriving open/high/low from close on a fully-populated row is the
identity. -/
theorem fillOHLFromClose_full (r : OHLCVRow) (h : rowFull r = true) :
    fillOHLFromClose r = r := by
  obtain ⟨o, hi, lo, c, vo, vw, tr, av, tk⟩ := r
  simp only [rowFull, Bool.and_eq_true] at h
  obtain ⟨⟨⟨⟨⟨⟨⟨⟨h1, h2⟩, h3⟩, h4⟩, -⟩, -⟩, -⟩, -⟩, -⟩ := h
  cases o <;> cases hi <;> cases lo <;> cases c <;>
    simp_all [fillOHLFromClose, fillWith]

/-- A fully-populated row has no null among the seven OHLCV columns. -/
theorem rowFull_no_null7 (r : OHLCVRow) (h : rowFull r = true) :
    rowHasNull7 r = false := by
  obtain ⟨o, hi, lo, c, vo, vw, tr, av, tk⟩ := r
  simp only [rowFull, Bool.and_eq_true] at h
  simp only [rowHasNull7]
  cases o <;> cases hi <;> cases lo <;> cases c <;> cases vo <;> cases vw <;>
    cases tr <;> simp_all

/-- Mapping a function that fixes every member is the identity. -/
theorem map_fix {α : Type} (f : α → α) : ∀ l : List α,
    (∀ x ∈ l, f x = x) → l.map f = l := by
  intro l
  induction l with
  | nil => intro _; rfl
  | cons a t ih =>
      intro h
      rw [List.map_cons, h a (by simp), ih (fun x hx => h x (by simp [hx]))]

/-- Forward-filling close over rows whose closes are all populated is the
identity, whatever the carried value. -/
theorem ffillClose_all_some : ∀ (l : OHLCVTable) (prev : Option ℚ),
    (∀ p ∈ l, p.2.close.isSome = true) → ffillClose l prev = l := by
  intro l
  induction l with
  | nil => intro _ _; rfl
  | cons p rest ih =>
      intro prev hall
      obtain ⟨ts, r⟩ := p
      obtain ⟨c, hc⟩ := Option.isSome_iff_exists.1 (hall (ts, r) (by simp))
      have hc2 : r.close = some c := hc
      simp only [ffillClose, hc2]
      rw [ih _ (fun q hq => hall q (by simp [hq]))]

/-- `copy_constant_col_to_all_rows` on a table whose head row has a null
ticker and whose remaining rows all carry the ticker `v` writes `v`
everywhere. -/
theorem copy_constant_uniform (ts0 : Micros) (r0 : OHLCVRow) (rest : OHLCVTable)
    (v : String) (h0 : r0.ticker = none) (hne : rest ≠ [])
    (ht : ∀ p ∈ rest, p.2.ticker = some v) :
    copy_constant_col_to_all_rows ((ts0, r0) :: rest) =
      .ok ((ts0, { r0 with ticker := some v }) ::
        rest.map (fun p => (p.1, { p.2 with ticker := some v }))) := by
  have hdedup : ((((ts0, r0) :: rest).map (fun p => p.2.ticker)).filterMap id).dedup = [v] := by
    apply dedup_const
    · obtain ⟨q, qs, rfl⟩ := List.exists_cons_of_ne_nil hne
      have : q.2.ticker = some v := ht q (by simp)
      simp [h0, this]
    · intro x hx
      rw [List.mem_filterMap] at hx
      obtain ⟨y, hy, hxy⟩ := hx
      rw [List.mem_map] at hy
      obtain ⟨p, hp, hpy⟩ := hy
      rcases List.mem_cons.1 hp with hp0 | hpr
      · subst hp0
        have hpy2 : r0.ticker = y := hpy
        rw [h0] at hpy2
        rw [← hpy2] at hxy
        simp at hxy
      · have hpy2 : p.2.ticker = y := hpy
        rw [ht p hpr] at hpy2
        rw [← hpy2] at hxy
        exact (Option.some_inj.1 hxy).symm
  unfold copy_constant_col_to_all_rows
  rw [hdedup]
  rfl

/-- The individual populated-field facts of a fully-populated row. -/
theorem rowFull_fields (r : OHLCVRow) (h : rowFull r = true) :
    r.«open».isSome = true ∧ r.high.isSome = true ∧ r.low.isSome = true ∧
    r.close.isSome = true ∧ r.volume.isSome = true ∧ r.vwap.isSome = true ∧
    r.transactions.isSome = true ∧ r.avg_size.isSome = true ∧
    r.ticker.isSome = true := by
  simp only [rowFull, Bool.and_eq_true] at h
  exact ⟨h.1.1.1.1.1.1.1.1, h.1.1.1.1.1.1.1.2, h.1.1.1.1.1.1.2, h.1.1.1.1.1.2,
    h.1.1.1.1.2, h.1.1.1.2, h.1.1.2, h.1.2, h.2⟩

/-- C6 as amended: for every table whose first row is entirely null and whose
remaining rows are fully populated with a single common ticker value, `fill`
returns a table where the activity columns of the first row (volume, vwap,
transactions, avg_size) are 0 and open, high, low and close of the first row
all equal the open of the second row (the first non-null open in the series),
while all other rows are unchanged. -/
theorem fill_ohlcv_first_row_nulled (ts0 ts1 : Micros) (r0 r1 : OHLCVRow)
    (rest : OHLCVTable) (v : String) (o2 : ℚ)
    (hnull : rowAllNull r0 = true)
    (hhead : rest.head? = some (ts1, r1))
    (ho : r1.«open» = some o2)
    (hfull : ∀ p ∈ rest, rowFull p.2 = true ∧ p.2.ticker = some v) :
    fill_ohlcv ((ts0, r0) :: rest) =
      .ok ((ts0, ⟨some o2, some o2, some o2, some o2, some 0, some 0, some 0,
        some 0, some v⟩) :: rest) := by
  have hr0 := rowAllNull_eq r0 hnull
  subst hr0
  have hne : rest ≠ [] := by
    intro h; rw [h] at hhead; simp at hhead
  have hcopy := copy_constant_uniform ts0 nullRow rest v rfl hne
    (fun p hp => (hfull p hp).2)
  have hrestfix : rest.map (fun p => (p.1, { p.2 with ticker := some v })) = rest :=
    map_fix _ rest (fun p hp => by
      rw [setTicker_fix p.2 v (hfull p hp).2])
  rw [hrestfix] at hcopy
  have hzf : rest.map (fun p => (p.1, zeroFillRow p.2)) = rest :=
    map_fix _ rest (fun p hp => by rw [zeroFillRow_full p.2 (hfull p hp).1])
  have e1 : (((ts0, { nullRow with ticker := some v }) :: rest) : OHLCVTable).map
      (fun p => (p.1, zeroFillRow p.2)) =
      (ts0, (⟨none, none, none, none, some 0, some 0, some 0, some 0, some v⟩ :
        OHLCVRow)) :: rest := by
    rw [List.map_cons, hzf]
    rfl
  have e2 : ffillClose ((ts0, (⟨none, none, none, none, some 0, some 0, some 0,
      some 0, some v⟩ : OHLCVRow)) :: rest) none =
      (ts0, (⟨none, none, none, none, some 0, some 0, some 0, some 0, some v⟩ :
        OHLCVRow)) :: rest := by
    rw [show ffillClose ((ts0, (⟨none, none, none, none, some 0, some 0, some 0,
        some 0, some v⟩ : OHLCVRow)) :: rest) none =
        (ts0, (⟨none, none, none, none, some 0, some 0, some 0, some 0, some v⟩ :
          OHLCVRow)) :: ffillClose rest none from rfl]
    rw [ffillClose_all_some rest none
      (fun p hp => rowFull_close_isSome p.2 (hfull p hp).1)]
  unfold fill_ohlcv
  rw [hcopy]
  simp only [bind, Except.bind]
  rw [e1, e2]
  obtain ⟨q, rest2, rfl⟩ := List.exists_cons_of_ne_nil hne
  obtain rfl : q = (ts1, r1) := by simpa using hhead
  simp only [List.map_cons, List.filterMap_cons, id]
  simp only [ho]
  have hr1full := (hfull (ts1, r1) (by simp)).1
  obtain ⟨c1, hc1⟩ := Option.isSome_iff_exists.1 (rowFull_close_isSome r1 hr1full)
  have hfields := rowFull_fields r1 hr1full
  obtain ⟨h1v, hh1⟩ := Option.isSome_iff_exists.1 hfields.2.1
  obtain ⟨l1v, hl1⟩ := Option.isSome_iff_exists.1 hfields.2.2.1
  have hsecond : fillOHLFromClose ⟨some o2, r1.high, r1.low, fillWith o2 r1.close, r1.volume, r1.vwap, r1.transactions, r1.avg_size, r1.ticker⟩ = r1 := by
    rw [hc1, hh1, hl1]
    show (⟨some o2, some h1v, some l1v, some c1, r1.volume, r1.vwap, r1.transactions, r1.avg_size, r1.ticker⟩ : OHLCVRow) = r1
    rw [← ho, ← hh1, ← hl1, ← hc1]
  have hcf2 : List.map (fun p : Micros × OHLCVRow => (p.1, ({ «open» := p.2.«open», high := p.2.high, low := p.2.low, close := fillWith o2 p.2.close, volume := p.2.volume, vwap := p.2.vwap, transactions := p.2.transactions, avg_size := p.2.avg_size, ticker := p.2.ticker } : OHLCVRow))) rest2 = rest2 :=
    map_fix _ _ (fun p hp => by
      obtain ⟨c, hc⟩ := Option.isSome_iff_exists.1 (rowFull_close_isSome p.2 (hfull p (by simp [hp])).1)
      rw [hc]
      show (p.1, ({ «open» := p.2.«open», high := p.2.high, low := p.2.low, close := some c, volume := p.2.volume, vwap := p.2.vwap, transactions := p.2.transactions, avg_size := p.2.avg_size, ticker := p.2.ticker } : OHLCVRow)) = p
      rw [← hc])
  have hohl2 : List.map (fun p : Micros × OHLCVRow => (p.1, fillOHLFromClose p.2)) rest2 = rest2 :=
    map_fix _ _ (fun p hp => by rw [fillOHLFromClose_full p.2 (hfull p (by simp [hp])).1])
  rw [hcf2, hohl2, hsecond]
  rw [show fillOHLFromClose { «open» := none, high := none, low := none, close := fillWith o2 none, volume := some 0, vwap := some 0, transactions := some 0, avg_size := some 0, ticker := some v } = (⟨some o2, some o2, some o2, some o2, some 0, some 0, some 0, some 0, some v⟩ : OHLCVRow) from rfl]
  have hany : (((ts0, (⟨some o2, some o2, some o2, some o2, some 0, some 0, some 0, some 0, some v⟩ : OHLCVRow)) :: (ts1, r1) :: rest2) : OHLCVTable).any (fun p => rowHasNull7 p.2) = false := by
    simp only [List.any_cons, Bool.or_eq_false_iff]
    refine ⟨rfl, rowFull_no_null7 r1 hr1full, ?_⟩
    rw [List.any_eq_false]
    intro p hp
    simp [rowFull_no_null7 p.2 (hfull p (by simp [hp])).1]
  rw [hany]
  simp

/-- A fully populated example row carrying ticker AAPL. -/
def fullRowA : OHLCVRow :=
  ⟨some 1, some 1, some 1, some 1, some 2, some 1, some 4, some 2, some "AAPL"⟩

/-- A fully populated example row carrying ticker MSFT. -/
def fullRowM : OHLCVRow :=
  ⟨some 1, some 1, some 1, some 1, some 2, some 1, some 4, some 2, some "MSFT"⟩

/-- C6 counterexample: a table whose first row is entirely null and whose
remaining rows are fully populated, but whose rows carry two distinct ticker
values.  `fill` does not return the claimed filled table: constant-column
propagation fails with an ambiguous-state error, as the spec prescribes for a
constant column with more than one distinct non-null value. -/
theorem fill_ohlcv_first_row_nulled_counterexample :
    rowAllNull nullRow = true ∧
    rowFull fullRowA = true ∧ rowFull fullRowM = true ∧
    fill_ohlcv [(0, nullRow), (MIN_1, fullRowA), (2 * MIN_1, fullRowM)] =
      .error (.valueError "constant column has more than one distinct value") :=
  ⟨rfl, rfl, rfl, rfl⟩

/-- Witness for the amended C6 theorem at a concrete three-row table. -/
theorem fill_ohlcv_first_row_nulled_witness :
    (rowAllNull nullRow = true ∧
      ([(MIN_1, fullRowA), (2 * MIN_1, fullRowA)] : OHLCVTable).head? =
        some (MIN_1, fullRowA) ∧
      fullRowA.«open» = some 1 ∧
      (∀ p ∈ ([(MIN_1, fullRowA), (2 * MIN_1, fullRowA)] : OHLCVTable),
        rowFull p.2 = true ∧ p.2.ticker = some "AAPL")) ∧
    fill_ohlcv [(0, nullRow), (MIN_1, fullRowA), (2 * MIN_1, fullRowA)] =
      .ok [(0, ⟨some 1, some 1, some 1, some 1, some 0, some 0, some 0, some 0,
        some "AAPL"⟩), (MIN_1, fullRowA), (2 * MIN_1, fullRowA)] :=
  ⟨⟨rfl, rfl, rfl, by decide⟩,
    fill_ohlcv_first_row_nulled 0 MIN_1 nullRow fullRowA
      [(MIN_1, fullRowA), (2 * MIN_1, fullRowA)] "AAPL" 1 rfl rfl rfl (by decide)⟩

/-- Days from civil date (proleptic Gregorian), the standard integer
algorithm mapping `(y, m, d)` to days since 1970-01-01. -/
def days_from_civil (y m d : Int) : Int :=
  let y2 := if m ≤ 2 then y - 1 else y
  let era := (if 0 ≤ y2 then y2 else y2 - 399) / 400
  let yoe := y2 - era * 400
  let mp := (m + 9) % 12
  let doy := (153 * mp + 2) / 5 + d - 1
  let doe := yoe * 365 + yoe / 4 - yoe / 100 + doy
  era * 146097 + doe - 719468

/-- Civil date from days since 1970-01-01 (inverse of `days_from_civil`). -/
def civil_from_days (z0 : Int) : Int × Int × Int :=
  let z := z0 + 719468
  let era := (if 0 ≤ z then z else z - 146096) / 146097
  let doe := z - era * 146097
  let yoe := (doe - doe / 1460 + doe / 36524 - doe / 146096) / 365
  let y := yoe + era * 400
  let doy := doe - (365 * yoe + yoe / 4 - yoe / 100)
  let mp := (5 * doy + 2) / 153
  let d := doy - (153 * mp + 2) / 5 + 1
  let m := if mp < 10 then mp + 3 else mp - 9
  (if m ≤ 2 then y + 1 else y, m, d)

/-- Day of week of an epoch day, 0 = Monday .. 6 = Sunday
(day 0 = 1970-01-01 was a Thursday = 3). -/
def weekdayOf (d : Int) : Int := (d + 3) % 7

/-- Saturday or Sunday. -/
def isWeekend (d : Int) : Bool := decide (5 ≤ weekdayOf d)

/-- Weekend-observed shifting for fixed-date holidays: a holiday falling on
Saturday is observed the Friday before, on Sunday the Monday after. -/
def observed (d : Int) : Int :=
  if weekdayOf d = 5 then d - 1 else if weekdayOf d = 6 then d + 1 else d

/-- Epoch day of the n-th given weekday of a month (n starting at 1). -/
def nthWeekdayOfMonth (y m wd n : Int) : Int :=
  let first := days_from_civil y m 1
  first + (wd - weekdayOf first) % 7 + 7 * (n - 1)

/-- Epoch day of the last given weekday of a month with `lastDay` days. -/
def lastWeekdayOfMonth (y m lastDay wd : Int) : Int :=
  let last := days_from_civil y m lastDay
  last - (weekdayOf last - wd) % 7

/-- Easter Sunday of a year by the anonymous Gregorian computus, as an epoch
day. -/
def easterDay (y : Int) : Int :=
  let a := y % 19
  let b := y / 100
  let c := y % 100
  let d := b / 4
  let e := b % 4
  let f := (b + 8) / 25
  let g := (b - f + 1) / 3
  let h := (19 * a + b - d - g + 15) % 30
  let i := c / 4
  let k := c % 4
  let l := (32 + 2 * e + 2 * i - h - k) % 7
  let m := (a + 11 * h + 22 * l) / 451
  let month := (h + l - 7 * m + 114) / 31
  let day := (h + l - 7 * m + 114) % 31 + 1
  days_from_civil y month day

/-- Modelled from the spec: the US equity-market holiday schedule of a year
(`market_calendar` is not in the repository snapshot; spec section 4.1 lists
the nine holidays — New Years Day, MLK Day, Presidents Day, Good Friday,
Memorial Day, Independence Day, Labor Day, Thanksgiving, Christmas — with the
conventional weekend-observed shifting rules). -/
def holidaysOfYear (y : Int) : List Int :=
  [observed (days_from_civil y 1 1),
   nthWeekdayOfMonth y 1 0 3,
   nthWeekdayOfMonth y 2 0 3,
   easterDay y - 2,
   lastWeekdayOfMonth y 5 31 0,
   observed (days_from_civil y 7 4),
   nthWeekdayOfMonth y 9 0 1,
   nthWeekdayOfMonth y 11 3 4,
   observed (days_from_civil y 12 25)]

/-- The epoch day is an (observed) US market holiday.  Adjacent years are
consulted so that a New Years Day observed on December 31 is caught. -/
def isMarketHoliday (d : Int) : Bool :=
  let y := (civil_from_days d).1
  (holidaysOfYear (y - 1) ++ holidaysOfYear y ++ holidaysOfYear (y + 1)).contains d

/-- A valid trading day: a weekday that is not a market holiday. -/
def isValidMarketDay (d : Int) : Bool := !isWeekend d && !isMarketHoliday d

/-- The inclusive integer range `[lo, hi]` as a list. -/
def intRange (lo hi : Int) : List Int :=
  (List.range (hi - lo + 1).toNat).map (fun k : ℕ => lo + (k : Int))

/-- A pandas timestamp: microseconds since the epoch plus an optional
timezone (none = timezone-naive). -/
structure PdTimestamp where
  micros : Micros
  tz : Option String
deriving DecidableEq, Repr

/-- Modelled from the spec: `get_market_days` (`market_calendar`, not in the
repository snapshot).  Per spec section 4.1 and the tests in
`test_market_calendar.py`: both boundaries must carry timezone information
and agree on it (ValueError otherwise, with the messages asserted by the
tests); a day is returned iff it falls within `[start_ts, end_ts]` inclusive,
is not a Saturday or Sunday, and is not a US market holiday; returned days
are midnights carrying the input timezone. -/
def get_market_days (start_ts end_ts : PdTimestamp) :
    Except String (List PdTimestamp) :=
  match start_ts.tz with
  | none => .error "start_ts must have timezone information"
  | some zs =>
    match end_ts.tz with
    | none => .error "end_ts must have timezone information"
    | some ze =>
      if zs ≠ ze then .error "start_ts and end_ts must have the same timezone"
      else
        .ok (((intRange (start_ts.micros / DAY_1) (end_ts.micros / DAY_1)).filter
          (fun d => isValidMarketDay d)).map (fun d => ⟨d * DAY_1, some zs⟩))

/-- Membership in the inclusive integer range list. -/
theorem mem_intRange (lo hi d : Int) : d ∈ intRange lo hi ↔ lo ≤ d ∧ d ≤ hi := by
  constructor
  · intro hmem
    rw [intRange, List.mem_map] at hmem
    obtain ⟨k, hk, hkd⟩ := hmem
    rw [List.mem_range] at hk
    subst hkd
    constructor
    · omega
    · omega
  · rintro ⟨h1, h2⟩
    rw [intRange, List.mem_map]
    refine ⟨(d - lo).toNat, ?_, ?_⟩
    · rw [List.mem_range]
      omega
    · omega

/-- A single-day timestamp range in UTC at a given epoch day midnight. -/
def utcDay (d : Int) : PdTimestamp := ⟨d * DAY_1, some "UTC"⟩

/-- C7: for every timezone-aware range with matching timezones,
`get_market_days` returns exactly the days that fall within the inclusive
range, are not a Saturday or Sunday, and are not a US market holiday; and a
single-day range on each of the nine standard 2025 US market holidays
(New Years Day Jan 1, MLK Day Jan 20, Presidents Day Feb 17, Good Friday
Apr 18, Memorial Day May 26, Independence Day Jul 4, Labor Day Sep 1,
Thanksgiving Nov 27, Christmas Dec 25 — the dates asserted by
`test_holiday_exclusion`) returns the empty sequence. -/
theorem get_market_days_characterization :
    (∀ (s e : PdTimestamp) (z : String) (l : List PdTimestamp) (d : Int),
      s.tz = some z → e.tz = some z → get_market_days s e = .ok l →
      ((⟨d * DAY_1, some z⟩ : PdTimestamp) ∈ l ↔
        (s.micros / DAY_1 ≤ d ∧ d ≤ e.micros / DAY_1 ∧
          isWeekend d = false ∧ isMarketHoliday d = false))) ∧
    (get_market_days (utcDay 20089) (utcDay 20089) = .ok [] ∧
     get_market_days (utcDay 20108) (utcDay 20108) = .ok [] ∧
     get_market_days (utcDay 20136) (utcDay 20136) = .ok [] ∧
     get_market_days (utcDay 20196) (utcDay 20196) = .ok [] ∧
     get_market_days (utcDay 20234) (utcDay 20234) = .ok [] ∧
     get_market_days (utcDay 20273) (utcDay 20273) = .ok [] ∧
     get_market_days (utcDay 20332) (utcDay 20332) = .ok [] ∧
     get_market_days (utcDay 20419) (utcDay 20419) = .ok [] ∧
     get_market_days (utcDay 20447) (utcDay 20447) = .ok []) := by
  constructor
  · intro s e z l d hs he hok
    unfold get_market_days at hok
    simp only [hs, he] at hok
    rw [if_neg (by simp)] at hok
    injection hok with hok2
    subst hok2
    simp only [List.mem_map, List.mem_filter, PdTimestamp.mk.injEq]
    constructor
    · rintro ⟨d2, ⟨hmem, hvalid⟩, hd2, -⟩
      obtain rfl : d2 = d := by
        have hday : (DAY_1 : Int) ≠ 0 := by decide
        exact mul_right_cancel₀ hday hd2
      rw [mem_intRange] at hmem
      simp only [isValidMarketDay, Bool.and_eq_true, Bool.not_eq_true'] at hvalid
      exact ⟨hmem.1, hmem.2, hvalid.1, hvalid.2⟩
    · rintro ⟨h1, h2, h3, h4⟩
      refine ⟨d, ⟨(mem_intRange _ _ _).2 ⟨h1, h2⟩, ?_⟩, rfl, trivial⟩
      simp [isValidMarketDay, h3, h4]
  · exact ⟨rfl, rfl, rfl, rfl, rfl, rfl, rfl, rfl, rfl⟩

/-- Witness for the C7 characterization: instantiated at the single-day range
on Good Friday 2025 (epoch day 20196), whose result list is empty, so the day
itself is not a member while the right-hand side is falsified by the holiday
test. -/
theorem get_market_days_characterization_witness :
    ((utcDay 20196).tz = some "UTC" ∧
      get_market_days (utcDay 20196) (utcDay 20196) = .ok []) ∧
    (((⟨20196 * DAY_1, some "UTC"⟩ : PdTimestamp) ∈ ([] : List PdTimestamp)) ↔
      ((utcDay 20196).micros / DAY_1 ≤ 20196 ∧
        20196 ≤ (utcDay 20196).micros / DAY_1 ∧
        isWeekend 20196 = false ∧ isMarketHoliday 20196 = false)) :=
  ⟨⟨rfl, rfl⟩,
    get_market_days_characterization.1 (utcDay 20196) (utcDay 20196) "UTC"
      [] 20196 rfl rfl rfl⟩

/-- C8: `get_market_days` fails with an invalid-input error whenever either
boundary lacks timezone information or the two boundaries carry different
timezones; no result is returned in those cases. -/
theorem get_market_days_requires_timezones (s e : PdTimestamp)
    (h : s.tz = none ∨ e.tz = none ∨ s.tz ≠ e.tz) :
    ∃ msg, get_market_days s e = .error msg := by
  obtain ⟨sm, stz⟩ := s
  obtain ⟨em, etz⟩ := e
  unfold get_market_days
  cases stz with
  | none => exact ⟨_, rfl⟩
  | some zs =>
    cases etz with
    | none => exact ⟨_, rfl⟩
    | some ze =>
      have hne : zs ≠ ze := by
        rcases h with h | h | h
        · simp at h
        · simp at h
        · simp only [ne_eq, Option.some.injEq] at h
          exact h
      refine ⟨"start_ts and end_ts must have the same timezone", ?_⟩
      simp only [if_pos hne]

/-- Witness for C8 at a concrete naive start timestamp. -/
theorem get_market_days_requires_timezones_witness :
    ((⟨0, none⟩ : PdTimestamp).tz = none ∨
      (⟨0, some "UTC"⟩ : PdTimestamp).tz = none ∨
      (⟨0, none⟩ : PdTimestamp).tz ≠ (⟨0, some "UTC"⟩ : PdTimestamp).tz) ∧
    ∃ msg, get_market_days ⟨0, none⟩ ⟨0, some "UTC"⟩ = .error msg :=
  ⟨Or.inl rfl,
    get_market_days_requires_timezones ⟨0, none⟩ ⟨0, some "UTC"⟩ (Or.inl rfl)⟩

/-- The four-way boundary inclusivity enum of the reindexer. -/
inductive Inclusive
  | both
  | left
  | right
  | neither
deriving DecidableEq, Repr

/-- The candidate timestamp grid at `freq` spacing over `[start, stop]`:
`start, start + freq, start + 2 freq, ...` up to `stop` inclusive. -/
def buildGrid (start stop freq : Micros) : List Micros :=
  (List.range ((stop - start) / freq + 1).toNat).map
    (fun k : ℕ => start + (k : Int) * freq)

/-- Drop boundary timestamps excluded by the `start_end_inclusive`
setting. -/
def applyStartEndIncl (inc : Inclusive) (start stop : Micros)
    (g : List Micros) : List Micros :=
  match inc with
  | .both => g
  | .left => g.filter (fun ts => decide (ts ≠ stop))
  | .right => g.filter (fun ts => decide (ts ≠ start))
  | .neither => g.filter (fun ts => decide (ts ≠ start ∧ ts ≠ stop))

/-- Time of day of a timestamp, in microseconds since midnight. -/
def timeOfDay (ts : Micros) : Micros := ts % DAY_1

/-- The intraday `between_time` window filter with its own four-way
inclusivity (windows wrapping midnight keep either side). -/
def btKeep (w : Micros × Micros) (inc : Inclusive) (ts : Micros) : Bool :=
  let t := timeOfDay ts
  let geLo : Bool :=
    match inc with
    | .both | .left => decide (w.1 ≤ t)
    | _ => decide (w.1 < t)
  let leHi : Bool :=
    match inc with
    | .both | .right => decide (t ≤ w.2)
    | _ => decide (t < w.2)
  if w.1 ≤ w.2 then geLo && leHi else geLo || leHi

/-- Row lookup by timestamp; a timestamp absent from the observed table
becomes a fully null row. -/
def dfLookup (df : OHLCVTable) (ts : Micros) : OHLCVRow :=
  ((df.find? (fun p => p.1 == ts)).map (fun p => p.2)).getD nullRow

/-- The index is strictly increasing (chronologically sorted, no
duplicates). -/
def chronoSorted (df : OHLCVTable) : Prop :=
  List.Pairwise (fun p q : Micros × OHLCVRow => p.1 < q.1) df

instance (df : OHLCVTable) : Decidable (chronoSorted df) := by
  unfold chronoSorted
  infer_instance

/-- Modelled from the spec: `reindex_timeseries_df` (`dataframe_transforms`,
not in the repository snapshot).  Per spec section 4.2: default `start`/`end`
are the first/last observed timestamps; the candidate grid at `freq` spacing
over `[start, end]` is trimmed by the boundary-inclusivity enum, intersected
with the intraday `between_time` window if given, and restricted to valid
market days when requested; the observed table is then aligned onto the
final grid, timestamps missing from the input becoming fully null rows and
input timestamps outside the grid being dropped.  A non-sorted or duplicated
index is rejected. -/
def reindex_timeseries_df (df : OHLCVTable) (freq : Micros)
    (start? stop? : Option Micros) (bt : Option (Micros × Micros))
    (btInc : Inclusive) (seInc : Inclusive) (respectDays : Bool) :
    Except PyError OHLCVTable :=
  if freq ≤ 0 then .error (.valueError "freq must be positive")
  else if ¬ chronoSorted df then
    .error (.valueError "index must be sorted without duplicates")
  else
    match df.head?, df.getLast? with
    | some h, some l =>
      let start := start?.getD h.1
      let stop := stop?.getD l.1
      let grid := applyStartEndIncl seInc start stop (buildGrid start stop freq)
      let grid := match bt with
        | none => grid
        | some w => grid.filter (btKeep w btInc)
      let grid := if respectDays then
          grid.filter (fun ts => isValidMarketDay (ts / DAY_1))
        else grid
      .ok (grid.map (fun ts => (ts, dfLookup df ts)))
    | _, _ => .error .indexError

/-- Mapping two functions that agree on every member gives equal lists. -/
theorem map_congr_mem {α β : Type} (f g : α → β) : ∀ l : List α,
    (∀ x ∈ l, f x = g x) → l.map f = l.map g := by
  intro l
  induction l with
  | nil => intro _; rfl
  | cons a t ih =>
      intro h
      rw [List.map_cons, List.map_cons, h a (by simp),
        ih (fun x hx => h x (by simp [hx]))]

/-- Looking up every timestamp of a strictly increasing table reconstructs
the table itself. -/
theorem dfLookup_reconstruct : ∀ df : OHLCVTable, chronoSorted df →
    (df.map Prod.fst).map (fun ts => (ts, dfLookup df ts)) = df := by
  intro df
  induction df with
  | nil => intro _; rfl
  | cons p rest ih =>
      intro hs
      obtain ⟨hlt, htail⟩ := List.pairwise_cons.1 hs
      obtain ⟨ts0, r0⟩ := p
      rw [List.map_cons, List.map_cons]
      have hhead : dfLookup ((ts0, r0) :: rest) ts0 = r0 := by
        unfold dfLookup
        rw [List.find?_cons_of_pos _ (by simp)]
        rfl
      rw [hhead]
      have hmaps : (rest.map Prod.fst).map
          (fun ts => (ts, dfLookup ((ts0, r0) :: rest) ts)) =
          (rest.map Prod.fst).map (fun ts => (ts, dfLookup rest ts)) := by
        apply map_congr_mem
        intro ts hts
        obtain ⟨q, hq, rfl⟩ := List.mem_map.1 hts
        have hne : ((ts0, r0).1 == q.1) = false := by
          have := hlt q hq
          simp only [beq_eq_false_iff_ne, ne_eq]
          intro hcontra
          rw [hcontra] at this
          exact lt_irrefl _ this
        unfold dfLookup
        rw [List.find?_cons_of_neg _ (by simp [hne])]
      rw [hmaps, ih htail]

/-- C9 counterexample: a two-row table on Saturday/Sunday 2025-01-04/05 at
daily frequency.  Its index is exactly the gapless daily grid over its own
range, yet reindexing with the defaults (market-day filtering on) drops both
rows and returns the empty table rather than the table unchanged. -/
theorem reindex_not_idempotent_on_weekend :
    chronoSorted [(20092 * DAY_1, fullRowA), (20093 * DAY_1, fullRowA)] ∧
    ([(20092 * DAY_1, fullRowA), (20093 * DAY_1, fullRowA)] :
      OHLCVTable).map Prod.fst = buildGrid (20092 * DAY_1) (20093 * DAY_1) DAY_1 ∧
    reindex_timeseries_df [(20092 * DAY_1, fullRowA), (20093 * DAY_1, fullRowA)]
      DAY_1 none none none .both .both true = .ok [] ∧
    ([] : OHLCVTable) ≠
      [(20092 * DAY_1, fullRowA), (20093 * DAY_1, fullRowA)] := by
  refine ⟨by decide, by decide, rfl, by decide⟩

/-- C9 as amended: reindexing is idempotent on complete input that lies on
valid market days — for every nonempty table whose strictly increasing
timestamp index is exactly the gapless grid at frequency `freq` over its own
first-to-last range and whose timestamps all fall on valid market days,
`reindex` with default start/end (and the default market-day filtering)
returns the table unchanged. -/
theorem reindex_idempotent_on_market_day_grid (df : OHLCVTable) (freq : Micros)
    (h hl : Micros × OHLCVRow)
    (hfreq : 0 < freq)
    (hsorted : chronoSorted df)
    (hh : df.head? = some h) (hgl : df.getLast? = some hl)
    (hgrid : df.map Prod.fst = buildGrid h.1 hl.1 freq)
    (hdays : ∀ ts ∈ df.map Prod.fst, isValidMarketDay (ts / DAY_1) = true) :
    reindex_timeseries_df df freq none none none .both .both true = .ok df := by
  unfold reindex_timeseries_df
  rw [if_neg (not_le.mpr hfreq), if_neg (not_not_intro hsorted)]
  simp only [hh, hgl, Option.getD_none, Option.getD]
  rw [show applyStartEndIncl .both h.1 hl.1 (buildGrid h.1 hl.1 freq) =
    buildGrid h.1 hl.1 freq from rfl]
  rw [← hgrid]
  simp only [if_true]
  rw [List.filter_eq_self.mpr hdays]
  rw [dfLookup_reconstruct df hsorted]

/-- 2024-03-20 09:30 America/New_York expressed on the epoch-day grid
(epoch day 19802 was a Wednesday and a regular trading day). -/
def wedTs1 : Micros := 19802 * DAY_1 + (9 * 60 + 30) * MIN_1

/-- Five minutes after `wedTs1`. -/
def wedTs2 : Micros := wedTs1 + MIN_5

/-- The two-row gapless 5-minute table used as the C9 witness. -/
def dfW9 : OHLCVTable := [(wedTs1, fullRowA), (wedTs2, fullRowA)]

/-- Witness for the amended C9 theorem at a concrete gapless two-row table on
a regular trading day. -/
theorem reindex_idempotent_on_market_day_grid_witness :
    ((0 : Micros) < MIN_5 ∧ chronoSorted dfW9 ∧
      dfW9.head? = some (wedTs1, fullRowA) ∧
      dfW9.getLast? = some (wedTs2, fullRowA) ∧
      dfW9.map Prod.fst = buildGrid wedTs1 wedTs2 MIN_5 ∧
      (∀ ts ∈ dfW9.map Prod.fst, isValidMarketDay (ts / DAY_1) = true)) ∧
    reindex_timeseries_df dfW9 MIN_5 none none none .both .both true =
      .ok dfW9 :=
  ⟨⟨by decide, by decide, rfl, rfl, by decide, by decide⟩,
    reindex_idempotent_on_market_day_grid dfW9 MIN_5 (wedTs1, fullRowA)
      (wedTs2, fullRowA) (by decide) (by decide) rfl rfl (by decide) (by decide)⟩

/-- Modelled from the spec: `get_first_nonnull_ts(df, how='any')` (`utils`,
not in the repository snapshot) — the first timestamp whose row has any
non-null value (the anchor timestamp of spec section 4.4). -/
def get_first_nonnull_ts (df : OHLCVTable) : Option Micros :=
  (df.find? (fun p => rowAnyNonnull p.2)).map (fun p => p.1)

/-- `DataTimeframe.DAILY` as a timedelta. -/
def DAILY : Micros := DAY_1

/-- Resolution of the `bfill_data_start_threshold='default'` parameter
(ohlcv.py lines 164-170): 1 day for daily-or-longer timeframes, else 60
minutes. -/
def resolveBfillThreshold (timeframe : Micros) (bfill : Option Micros) : Micros :=
  match bfill with
  | some v => v
  | none => if DAILY ≤ timeframe then DAY_1 else 60 * MIN_1

/-- Embedding of `clean_ohlcv` (ohlcv.py lines 96-184): reindex, fast-path
return when no nulls remain, locate the anchor (first timestamp with any
non-null value), propagate constant columns, resolve the backfill threshold,
then either gap-fill the whole table (short leading gap) or split at the
anchor, gap-fill only the suffix, concatenate, and assert the suffix is
null-free.  `df.loc[:anchor].iloc[:-1]` and `df.loc[anchor:]` are the
prefix-with-anchor-dropped and the suffix of the sorted index. -/
def clean_ohlcv (df : OHLCVTable) (timeframe : Micros)
    (start? stop? : Option Micros) (bt : Option (Micros × Micros))
    (btInc : Inclusive) (respectDays : Bool) (bfill : Option Micros) :
    Except PyError OHLCVTable := do
  let df ← reindex_timeseries_df df timeframe start? stop? bt btInc .both respectDays
  if df.all (fun p => !(rowHasNullAny p.2)) then
    return df
  match get_first_nonnull_ts df with
  | none => .error .indexError
  | some first_observed_ts =>
    let df ← copy_constant_col_to_all_rows df
    let thr := resolveBfillThreshold timeframe bfill
    match df.head? with
    | none => .error .indexError
    | some h =>
      if first_observed_ts - h.1 ≤ thr then
        fill_ohlcv df
      else
        let before_df := (df.filter (fun p => decide (p.1 ≤ first_observed_ts))).dropLast
        let after_df := df.filter (fun p => decide (first_observed_ts ≤ p.1))
        let filled ← fill_ohlcv after_df
        let out := before_df ++ filled
        if (out.filter (fun p => decide (first_observed_ts ≤ p.1))).any
            (fun p => rowHasNullAny p.2) then
          .error .assertionError
        else
          .ok out

/-- The candidate grid is strictly increasing for a positive frequency. -/
theorem buildGrid_pairwise (start stop freq : Micros) (hf : 0 < freq) :
    (buildGrid start stop freq).Pairwise (· < ·) := by
  unfold buildGrid
  refine List.Pairwise.map _ ?_ (List.pairwise_lt_range _)
  intro a b hab
  have hab2 : (a : Int) < (b : Int) := by exact_mod_cast hab
  exact add_lt_add_left (mul_lt_mul_of_pos_right hab2 hf) start

/-- Every table returned by the reindexer has a strictly increasing
timestamp index. -/
theorem reindex_ok_pairwise (df : OHLCVTable) (freq : Micros)
    (s e : Option Micros) (bt : Option (Micros × Micros)) (bi si : Inclusive)
    (rd : Bool) (g : OHLCVTable)
    (h : reindex_timeseries_df df freq s e bt bi si rd = .ok g) :
    List.Pairwise (fun p q : Micros × OHLCVRow => p.1 < q.1) g := by
  unfold reindex_timeseries_df at h
  by_cases hfc : freq ≤ 0
  · rw [if_pos hfc] at h
    exact absurd h (by simp)
  · rw [if_neg hfc] at h
    by_cases hsc : chronoSorted df
    swap
    · rw [if_pos hsc] at h
      exact absurd h (by simp)
    · rw [if_neg (not_not_intro hsc)] at h
      split at h
      · rename_i h1 l1 heq1 heq2
        injection h with h
        subst h
        rw [List.pairwise_map]
        have hf : 0 < freq := not_le.mp hfc
        have hbase := buildGrid_pairwise (s.getD h1.1) (e.getD l1.1) freq hf
        have hincl : (applyStartEndIncl si (s.getD h1.1) (e.getD l1.1)
            (buildGrid (s.getD h1.1) (e.getD l1.1) freq)).Pairwise
            (· < · : Micros → Micros → Prop) := by
          cases si <;> first
            | exact hbase
            | exact List.Pairwise.filter _ hbase
        have hbt : ∀ g0 : List Micros, g0.Pairwise (· < ·) →
            (match bt with
              | none => g0
              | some w => g0.filter (btKeep w bi)).Pairwise (· < ·) := by
          intro g0 hg0
          cases bt with
          | none => exact hg0
          | some w => exact List.Pairwise.filter _ hg0
        have hmd : ∀ g0 : List Micros, g0.Pairwise (· < ·) →
            (if rd then g0.filter (fun ts => isValidMarketDay (ts / DAY_1))
              else g0).Pairwise (· < ·) := by
          intro g0 hg0
          cases rd with
          | false => exact hg0
          | true => exact List.Pairwise.filter _ hg0
        exact hmd _ (hbt _ hincl)
      · exact absurd h (by simp)

/-- A row with no null column has some non-null column. -/
theorem rowNoNull_anyNonnull (r : OHLCVRow) (h : rowHasNullAny r = false) :
    rowAnyNonnull r = true := by
  obtain ⟨o, hi, lo, c, vo, vw, tr, av, tk⟩ := r
  simp only [rowHasNullAny, Bool.or_eq_false_iff] at h
  cases o
  · simp at h
  · simp [rowAnyNonnull, rowAllNull]

/-- Rows strictly before the anchor timestamp are entirely null, and the
anchor timestamp belongs to the index. -/
theorem anchor_prefix_allNull : ∀ (g : OHLCVTable) (a : Micros),
    get_first_nonnull_ts g = some a →
    List.Pairwise (fun p q : Micros × OHLCVRow => p.1 < q.1) g →
    (∀ p ∈ g, p.1 < a → rowAllNull p.2 = true) ∧ a ∈ g.map Prod.fst := by
  intro g
  induction g with
  | nil => intro a ha _; simp [get_first_nonnull_ts] at ha
  | cons q rest ih =>
      intro a ha hs
      obtain ⟨hlt, htail⟩ := List.pairwise_cons.1 hs
      unfold get_first_nonnull_ts at ha
      cases hq : rowAnyNonnull q.2 with
      | true =>
          simp only [List.find?, hq, Option.map_some] at ha
          obtain rfl : q.1 = a := by
            exact Option.some_inj.1 ha
          constructor
          · intro p hp hpa
            rcases List.mem_cons.1 hp with rfl | hp2
            · exact absurd hpa (lt_irrefl _)
            · exact absurd hpa (not_lt.2 (le_of_lt (hlt p hp2)))
          · simp
      | false =>
          simp only [List.find?, hq] at ha
          have := ih a ha htail
          constructor
          · intro p hp hpa
            rcases List.mem_cons.1 hp with rfl | hp2
            · simp only [rowAnyNonnull, Bool.not_eq_true'] at hq
              simpa using hq
            · exact this.1 p hp2 hpa
          · simp only [List.map_cons, List.mem_cons]
            exact Or.inr this.2

/-- If the head row has some non-null column, the anchor is the head
timestamp. -/
theorem anchor_of_head (g : OHLCVTable) (h0 : Micros × OHLCVRow)
    (hh : g.head? = some h0) (hr : rowAnyNonnull h0.2 = true) :
    get_first_nonnull_ts g = some h0.1 := by
  cases g with
  | nil => simp at hh
  | cons q rest =>
      obtain rfl : q = h0 := by simpa using hh
      unfold get_first_nonnull_ts
      simp only [List.find?, hr]
      rfl

/-- On a strictly increasing table containing the timestamp `a`, the
prefix-inclusive-dropLast slice equals the strict prefix. -/
theorem sorted_filter_dropLast : ∀ (t : OHLCVTable) (a : Micros),
    List.Pairwise (fun p q : Micros × OHLCVRow => p.1 < q.1) t →
    a ∈ t.map Prod.fst →
    (t.filter (fun p => decide (p.1 ≤ a))).dropLast =
      t.filter (fun p => decide (p.1 < a)) := by
  intro t
  induction t with
  | nil => intro a _ ha; simp at ha
  | cons q rest ih =>
      intro a hs ha
      obtain ⟨hlt, htail⟩ := List.pairwise_cons.1 hs
      have ha2 : a = q.1 ∨ ∃ r, (a, r) ∈ rest := by simpa using ha
      rcases lt_trichotomy q.1 a with hqa | hqa | hqa
      · have hmem : a ∈ rest.map Prod.fst := by
          rcases ha2 with h1 | ⟨r, hr⟩
          · exact absurd h1 (ne_of_gt hqa)
          · exact List.mem_map.2 ⟨(a, r), hr, rfl⟩
        rw [List.filter_cons_of_pos (by simp [le_of_lt hqa]),
          List.filter_cons_of_pos (by simp [hqa])]
        have hne : rest.filter (fun p => decide (p.1 ≤ a)) ≠ [] := by
          obtain ⟨p, hp, hpa⟩ := List.mem_map.1 hmem
          intro hcontra
          have := List.filter_eq_nil_iff.1 hcontra p hp
          simp [hpa] at this
        rw [List.dropLast_cons_of_ne_nil hne]
        rw [ih a htail hmem]
      · rw [List.filter_cons_of_pos (by simp [le_of_eq hqa]),
          List.filter_cons_of_neg (by simp [hqa])]
        have hrest1 : rest.filter (fun p => decide (p.1 ≤ a)) = [] := by
          apply List.filter_eq_nil_iff.2
          intro p hp
          have h3 := hlt p hp
          simp only [decide_eq_true_eq, not_le]
          rw [← hqa]
          exact h3
        have hrest2 : rest.filter (fun p => decide (p.1 < a)) = [] := by
          apply List.filter_eq_nil_iff.2
          intro p hp
          have h3 := hlt p hp
          simp only [decide_eq_true_eq, not_lt]
          rw [← hqa]
          exact le_of_lt h3
        rw [hrest1, hrest2]
        rfl
      · exfalso
        rcases ha2 with h1 | ⟨r, hr⟩
        · exact absurd h1.symm (ne_of_gt hqa)
        · have h3 := hlt (a, r) hr
          exact absurd (lt_trans hqa h3) (lt_irrefl a)

/-- On a strictly increasing table, the strict prefix and the inclusive
suffix at `a` concatenate back to the table. -/
theorem sorted_filter_append : ∀ (t : OHLCVTable) (a : Micros),
    List.Pairwise (fun p q : Micros × OHLCVRow => p.1 < q.1) t →
    t.filter (fun p => decide (p.1 < a)) ++
      t.filter (fun p => decide (a ≤ p.1)) = t := by
  intro t
  induction t with
  | nil => intro a _; rfl
  | cons q rest ih =>
      intro a hs
      obtain ⟨hlt, htail⟩ := List.pairwise_cons.1 hs
      by_cases hqa : q.1 < a
      · rw [List.filter_cons_of_pos (by simp [hqa]),
          List.filter_cons_of_neg (by simp [not_le.2 hqa])]
        rw [List.cons_append, ih a htail]
      · rw [List.filter_cons_of_neg (by simp [hqa]),
          List.filter_cons_of_pos (by simp [not_lt.1 hqa])]
        have hqa2 : a ≤ q.1 := not_lt.1 hqa
        have hrest1 : rest.filter (fun p => decide (p.1 < a)) = [] := by
          apply List.filter_eq_nil_iff.2
          intro p hp
          have h3 := hlt p hp
          simp only [decide_eq_true_eq, not_lt]
          exact le_of_lt (lt_of_le_of_lt hqa2 h3)
        have hrest2 : rest.filter (fun p => decide (a ≤ p.1)) = rest := by
          apply List.filter_eq_self.2
          intro p hp
          have h3 := hlt p hp
          simp only [decide_eq_true_eq]
          exact le_of_lt (lt_of_le_of_lt hqa2 h3)
        rw [hrest1, hrest2]
        rfl

/-- A successful constant-column propagation rewrites every ticker to a
single value and changes nothing else. -/
theorem copy_constant_shape (t t2 : OHLCVTable)
    (h : copy_constant_col_to_all_rows t = .ok t2) :
    ∃ c, t2 = t.map (fun p => (p.1, { p.2 with ticker := some c })) := by
  unfold copy_constant_col_to_all_rows at h
  split at h
  · exact absurd h (by simp)
  · rename_i v heq
    injection h with h
    exact ⟨v, h.symm⟩
  · exact absurd h (by simp)

/-- Forward-filling close preserves the timestamp index. -/
theorem ffillClose_map_fst : ∀ (l : OHLCVTable) (prev : Option ℚ),
    (ffillClose l prev).map Prod.fst = l.map Prod.fst := by
  intro l
  induction l with
  | nil => intro _; rfl
  | cons p rest ih =>
      intro prev
      obtain ⟨ts, r⟩ := p
      cases hc : r.close with
      | some c =>
          simp only [ffillClose, hc, List.map_cons]
          rw [ih]
      | none =>
          simp only [ffillClose, hc, List.map_cons]
          rw [ih]

/-- Mapping a first-component-preserving function preserves the timestamp
index. -/
theorem map_fst_pointwise (f : Micros × OHLCVRow → Micros × OHLCVRow)
    (hf : ∀ p, (f p).1 = p.1) : ∀ l : OHLCVTable,
    (l.map f).map Prod.fst = l.map Prod.fst := by
  intro l
  induction l with
  | nil => rfl
  | cons p rest ih =>
      simp only [List.map_cons, hf p]
      rw [ih]

/-- Gap-filling preserves the timestamp index. -/
theorem fill_ohlcv_map_fst (t t2 : OHLCVTable) (h : fill_ohlcv t = .ok t2) :
    t2.map Prod.fst = t.map Prod.fst := by
  unfold fill_ohlcv at h
  cases hcc : copy_constant_col_to_all_rows t with
  | error e => rw [hcc] at h; exact absurd h (by simp [bind, Except.bind])
  | ok t1 =>
      rw [hcc] at h
      simp only [bind, Except.bind] at h
      obtain ⟨c, rfl⟩ := copy_constant_shape t t1 hcc
      split at h
      · exact absurd h (by simp)
      · rename_i firstOpen tail heq
        split at h
        · exact absurd h (by simp)
        · injection h with h
          subst h
          rw [map_fst_pointwise (fun p => (p.1, fillOHLFromClose p.2))
            (fun p => rfl)]
          rw [map_fst_pointwise
            (fun p => (p.1, { p.2 with close := fillWith firstOpen p.2.close }))
            (fun p => rfl)]
          rw [ffillClose_map_fst]
          rw [map_fst_pointwise (fun p => (p.1, zeroFillRow p.2)) (fun p => rfl)]
          rw [map_fst_pointwise (fun p => (p.1, { p.2 with ticker := some c }))
            (fun p => rfl)]

/-- C5: for every input to `clean` whose reindexed table `g` has its anchor
(first timestamp with any non-null value) more than the resolved
`bfill_start_threshold` after the first grid timestamp, the returned table
keeps every row strictly before the anchor at its reindexed value (all OHLCV
columns still null, only the constant ticker column propagated), has zero
nulls in every row from the anchor forward, and is the concatenation of the
two segments in strictly increasing timestamp order over exactly the
reindexed grid. -/
theorem clean_ohlcv_long_leading_gap (df : OHLCVTable) (timeframe : Micros)
    (start? stop? : Option Micros) (bt : Option (Micros × Micros))
    (btInc : Inclusive) (respectDays : Bool) (bfill : Option Micros)
    (g out : OHLCVTable) (a : Micros) (h0 : Micros × OHLCVRow)
    (hre : reindex_timeseries_df df timeframe start? stop? bt btInc .both
      respectDays = .ok g)
    (hanchor : get_first_nonnull_ts g = some a)
    (hhead : g.head? = some h0)
    (hthr : resolveBfillThreshold timeframe bfill < a - h0.1)
    (hok : clean_ohlcv df timeframe start? stop? bt btInc respectDays bfill =
      .ok out) :
    (∀ p ∈ out, p.1 < a → ∃ r0 c, (p.1, r0) ∈ g ∧ rowAllNull r0 = true ∧
      p.2 = { r0 with ticker := some c }) ∧
    (∀ p ∈ out, a ≤ p.1 → rowHasNullAny p.2 = false) ∧
    out.map Prod.fst = g.map Prod.fst ∧
    List.Pairwise (fun p q : Micros × OHLCVRow => p.1 < q.1) out := by
  have hgsorted := reindex_ok_pairwise _ _ _ _ _ _ _ _ _ hre
  have hprefix := anchor_prefix_allNull g a hanchor hgsorted
  unfold clean_ohlcv at hok
  rw [hre] at hok
  simp only [bind, Except.bind] at hok
  by_cases hall : g.all (fun p => !(rowHasNullAny p.2)) = true
  · rw [if_pos hall] at hok
    have hnn : ∀ p ∈ g, rowHasNullAny p.2 = false := by
      intro p hp
      have := List.all_eq_true.1 hall p hp
      simpa using this
    have h0mem : h0 ∈ g := by
      cases g with
      | nil => simp at hhead
      | cons q rest =>
          obtain rfl : q = h0 := by simpa using hhead
          simp
    have ha2 := anchor_of_head g h0 hhead (rowNoNull_anyNonnull _ (hnn h0 h0mem))
    have haeq : a = h0.1 := by
      rw [hanchor] at ha2
      exact Option.some_inj.1 ha2
    simp only [pure, Except.pure] at hok
    injection hok with hok2
    subst hok2
    have hgne : g ≠ [] := by
      intro hc
      rw [hc] at hhead
      simp at hhead
    obtain ⟨q, rest, hg⟩ := List.exists_cons_of_ne_nil hgne
    have hmin : ∀ p ∈ g, h0.1 ≤ p.1 := by
      intro p hp
      rw [hg] at hhead hp hgsorted
      obtain rfl : q = h0 := by simpa using hhead
      rcases List.mem_cons.1 hp with rfl | hp2
      · exact le_refl _
      · exact le_of_lt ((List.pairwise_cons.1 hgsorted).1 p hp2)
    refine ⟨?_, fun p hp _ => hnn p hp, rfl, hgsorted⟩
    intro p hp hpa
    exfalso
    have := hmin p hp
    rw [haeq] at hpa
    exact absurd hpa (not_lt.2 this)
  · rw [if_neg hall] at hok
    simp only [hanchor] at hok
    cases hcc : copy_constant_col_to_all_rows g with
    | error e =>
        rw [hcc] at hok
        simp [bind, Except.bind, pure, Except.pure] at hok
    | ok df2 =>
        rw [hcc] at hok
        simp only [bind, Except.bind] at hok
        obtain ⟨c, hshape⟩ := copy_constant_shape g df2 hcc
        have hsorted2 : List.Pairwise (fun p q : Micros × OHLCVRow => p.1 < q.1) df2 := by
          rw [hshape, List.pairwise_map]
          exact hgsorted
        have hfst2 : df2.map Prod.fst = g.map Prod.fst := by
          rw [hshape]
          exact map_fst_pointwise
            (fun p => (p.1, { p.2 with ticker := some c })) (fun p => rfl) g
        have hamem2 : a ∈ df2.map Prod.fst := by
          rw [hfst2]
          exact hprefix.2
        have hhead2 : df2.head? = some (h0.1, { h0.2 with ticker := some c }) := by
          rw [hshape]
          cases g with
          | nil => simp at hhead
          | cons q rest =>
              obtain rfl : q = h0 := by simpa using hhead
              rfl
        simp only [hhead2] at hok
        rw [if_neg (not_le.2 hthr)] at hok
        simp only [pure, Except.pure] at hok
        split at hok
        · exact absurd hok (by simp)
        · rename_i v heqf
          split at hok
          · exact absurd hok (by simp)
          · rename_i hassert
            injection hok with houteq
            subst houteq
            have hbefore := sorted_filter_dropLast df2 a hsorted2 hamem2
            have happend := sorted_filter_append df2 a hsorted2
            have hvfst : v.map Prod.fst =
                (df2.filter (fun p => decide (a ≤ p.1))).map Prod.fst :=
              fill_ohlcv_map_fst _ _ heqf
            have hconj3 : (((df2.filter (fun p => decide (p.1 ≤ a))).dropLast ++ v) :
                OHLCVTable).map Prod.fst = g.map Prod.fst := by
              rw [List.map_append, hbefore, hvfst, ← List.map_append, happend, hfst2]
            refine ⟨?_, ?_, hconj3, ?_⟩
            · intro p hp hpa
              rcases List.mem_append.1 hp with hpb | hpv
              · rw [hbefore] at hpb
                have hpd : p ∈ df2 := List.mem_of_mem_filter hpb
                rw [hshape] at hpd
                obtain ⟨q, hq, hq2⟩ := List.mem_map.1 hpd
                subst hq2
                exact ⟨q.2, c, hq, hprefix.1 q hq hpa, rfl⟩
              · exfalso
                have hv1 : p.1 ∈ v.map Prod.fst := List.mem_map.2 ⟨p, hpv, rfl⟩
                rw [hvfst] at hv1
                obtain ⟨q, hq, hqq⟩ := List.mem_map.1 hv1
                have hq3 := List.mem_filter.1 hq
                have haq : a ≤ q.1 := by simpa using hq3.2
                rw [hqq] at haq
                exact absurd hpa (not_lt.2 haq)
            · intro p hp hap
              have hmf : p ∈ ((df2.filter (fun p => decide (p.1 ≤ a))).dropLast ++ v).filter
                  (fun p => decide (a ≤ p.1)) :=
                List.mem_filter.2 ⟨hp, by simpa using hap⟩
              have hfalse := Bool.eq_false_iff.2 hassert
              have := List.any_eq_false.1 hfalse p hmf
              exact Bool.eq_false_iff.2 this
            · have hgfstpw : ((((df2.filter (fun p => decide (p.1 ≤ a))).dropLast ++ v) :
                  OHLCVTable).map Prod.fst).Pairwise (· < ·) := by
                rw [hconj3]
                exact List.pairwise_map.2 hgsorted
              exact List.pairwise_map.1 hgfstpw

/-- The C5 witness input: a null row at the grid start and an observed row
one minute later, cleaned with an explicit zero backfill threshold. -/
def dfW5 : OHLCVTable := [(0, nullRow), (MIN_1, fullRowA)]

/-- The C5 witness output: the leading row stays null apart from the
propagated ticker; the anchor row is untouched. -/
def outW5 : OHLCVTable :=
  [(0, ⟨none, none, none, none, none, none, none, none, some "AAPL"⟩),
   (MIN_1, fullRowA)]

/-- Witness for the C5 theorem at the concrete two-row table: the reindexed
grid is the table itself, the anchor sits one minute after the grid start,
the threshold is zero, and the cleaned output satisfies all four clauses. -/
theorem clean_ohlcv_long_leading_gap_witness :
    (reindex_timeseries_df dfW5 MIN_1 none none none .both .both false =
        .ok dfW5 ∧
      get_first_nonnull_ts dfW5 = some MIN_1 ∧
      dfW5.head? = some (0, nullRow) ∧
      resolveBfillThreshold MIN_1 (some 0) < MIN_1 - (0, nullRow).1 ∧
      clean_ohlcv dfW5 MIN_1 none none none .both false (some 0) = .ok outW5) ∧
    ((∀ p ∈ outW5, p.1 < MIN_1 → ∃ r0 c, (p.1, r0) ∈ dfW5 ∧
        rowAllNull r0 = true ∧ p.2 = { r0 with ticker := some c }) ∧
      (∀ p ∈ outW5, MIN_1 ≤ p.1 → rowHasNullAny p.2 = false) ∧
      outW5.map Prod.fst = dfW5.map Prod.fst ∧
      List.Pairwise (fun p q : Micros × OHLCVRow => p.1 < q.1) outW5) :=
  ⟨⟨rfl, rfl, rfl, by decide, rfl⟩,
    clean_ohlcv_long_leading_gap dfW5 MIN_1 none none none .both false (some 0)
      dfW5 outW5 MIN_1 (0, nullRow) rfl rfl rfl (by decide) rfl⟩
